import Mathlib

/-!
Verification of the matrix-construction core (`qutip/core/data/make.py`).

The file embeds the four one-element constructors, the shared bounds
check, the out-of-bounds error, and the dispatch entry points, and proves
the specified properties about them.  Complex scalars are modelled as
Gaussian rationals (a pair of rationals), numeric buffers as lists, and
the fallible Python constructors as functions into `Except`.
-/

namespace QutipData

/-- A complex scalar, modelled as a pair of rationals (real and imaginary
part).  The constructors only store and read values back, so this carries
exactly the structure the code relies on. -/
structure Cplx where
  re : ℚ
  im : ℚ
deriving DecidableEq, Repr

instance : Zero Cplx := ⟨⟨0, 0⟩⟩

instance : One Cplx := ⟨⟨1, 0⟩⟩

instance : Add Cplx := ⟨fun a b => ⟨a.re + b.re, a.im + b.im⟩⟩

theorem Cplx.add_zero (a : Cplx) : a + 0 = a := by
  cases a with
  | mk r i =>
    show Cplx.mk (r + 0) (i + 0) = Cplx.mk r i
    simp

/-! ### List helpers

`getD`-level lemmas about `replicate`, `set` and the slice-assignment
helper used to model NumPy slice writes. -/

theorem getD_replicate {α : Type} (a d : α) (n m : Nat) :
    (List.replicate n a).getD m d = if m < n then a else d := by
  induction n generalizing m with
  | zero => simp
  | succ k ih =>
    cases m with
    | zero => simp [List.replicate]
    | succ m' => simpa [List.replicate, Nat.succ_lt_succ_iff] using ih m'

theorem getD_set {α : Type} (l : List α) (k m : Nat) (v d : α) :
    (l.set k v).getD m d =
      if m = k ∧ k < l.length then v else l.getD m d := by
  induction l generalizing k m with
  | nil => simp
  | cons x xs ih =>
    cases k with
    | zero =>
      cases m with
      | zero => simp
      | succ m' => simp
    | succ k' =>
      cases m with
      | zero => simp
      | succ m' =>
        simpa [Nat.succ_lt_succ_iff] using ih k' m'

/-- Slice assignment `l[lo:hi] = v` (a scalar broadcast, NumPy style):
every index in `[lo, hi)` is overwritten with `v`, the rest is kept. -/
def setRange {α : Type} : List α → Nat → Nat → α → List α
  | [], _, _, _ => []
  | x :: xs, lo, hi, v =>
    (if lo = 0 ∧ 0 < hi then v else x) :: setRange xs (lo - 1) (hi - 1) v

theorem length_setRange {α : Type} (l : List α) (lo hi : Nat) (v : α) :
    (setRange l lo hi v).length = l.length := by
  induction l generalizing lo hi with
  | nil => rfl
  | cons x xs ih => simp [setRange, ih]

theorem getD_setRange {α : Type} (l : List α) (lo hi m : Nat) (v d : α) :
    (setRange l lo hi v).getD m d =
      if lo ≤ m ∧ m < hi ∧ m < l.length then v else l.getD m d := by
  induction l generalizing lo hi m with
  | nil => simp [setRange]
  | cons x xs ih =>
    cases m with
    | zero =>
      by_cases h : lo = 0 ∧ 0 < hi
      · have hc : lo ≤ 0 ∧ 0 < hi ∧ 0 < (x :: xs).length :=
          ⟨Nat.le_of_eq h.1, h.2, Nat.succ_pos _⟩
        simp only [setRange, List.getD_cons_zero, if_pos h, if_pos hc]
      · have hc : ¬(lo ≤ 0 ∧ 0 < hi ∧ 0 < (x :: xs).length) := by
          intro hc
          exact h ⟨Nat.le_zero.mp hc.1, hc.2.1⟩
        simp only [setRange, List.getD_cons_zero, if_neg h, if_neg hc]
    | succ m' =>
      have step := ih (lo - 1) (hi - 1) m'
      simp only [setRange, List.getD_cons_succ, step, List.length_cons]
      by_cases h : lo ≤ m' + 1 ∧ m' + 1 < hi ∧ m' + 1 < xs.length + 1
      · rw [if_pos h, if_pos (by omega)]
      · rw [if_neg h, if_neg (by omega)]

/-! ### Data model

The four storage representations from the data model: dense row-major,
coordinate triplets, compressed-row, and diagonal-offset.  Each carries a
read-back function giving the abstract matrix entry at a position, which
is the entrywise semantics all representations share. -/

/-- Dense representation: shape plus a contiguous row-major buffer of
R*C complex scalars. -/
structure Dense where
  shape : ℤ × ℤ
  buffer : List Cplx
deriving DecidableEq, Repr

/-- Reading the dense matrix at (i, j): the buffer cell at row-major
linear offset i*C + j. -/
def Dense.get (m : Dense) (i j : ℤ) : Cplx :=
  m.buffer.getD (i * m.shape.2 + j).toNat 0

/-- Coordinate (triplet) representation: parallel sequences of values,
row indices and column indices. -/
structure COO where
  shape : ℤ × ℤ
  data : List Cplx
  rows : List ℤ
  cols : List ℤ
deriving DecidableEq, Repr

/-- Reading the coordinate matrix at (i, j): the sum of all stored values
whose (row, col) pair equals (i, j); duplicates are logically summed. -/
def COO.get (m : COO) (i j : ℤ) : Cplx :=
  (m.data.zip (m.rows.zip m.cols)).foldr
    (fun e acc => if e.2.1 = i ∧ e.2.2 = j then e.1 + acc else acc) 0

/-- Compressed-row representation: a values buffer, a column-index buffer
of the same length, and a row-pointer buffer of length R+1. -/
structure CSR where
  shape : ℤ × ℤ
  data : List Cplx
  indices : List ℤ
  indptr : List ℤ
deriving DecidableEq, Repr

/-- Reading the compressed-row matrix at (i, j): row i's stored entries
are the slice delimited by indptr[i] and indptr[i+1]; sum the values in
that slice whose column index is j. -/
def CSR.get (m : CSR) (i j : ℤ) : Cplx :=
  (List.range m.data.length).foldr
    (fun k acc =>
      if (m.indptr.getD i.toNat 0).toNat ≤ k ∧
          k < (m.indptr.getD (i.toNat + 1) 0).toNat ∧
          m.indices.getD k 0 = j then
        m.data.getD k 0 + acc
      else acc) 0

/-- Diagonal-offset representation: a K×C diagonal-value buffer and a
K-element offsets sequence; diagonal k with offset o occupies matrix
cells (i, i+o), its buffer row holding the cell value at absolute buffer
column i+o. -/
structure Dia where
  shape : ℤ × ℤ
  data : List (List Cplx)
  offsets : List ℤ
deriving DecidableEq, Repr

/-- Reading the diagonal-offset matrix at (i, j): sum, over the stored
diagonals whose offset is j - i, the buffer entry at absolute column j. -/
def Dia.get (m : Dia) (i j : ℤ) : Cplx :=
  (m.offsets.zip m.data).foldr
    (fun e acc => if e.1 = j - i then e.2.getD j.toNat 0 + acc else acc) 0

/-! ### Collaborator constructors missing from the sources -/

namespace csr

/-- Modelled from the spec: csr.empty (the compressed-row module's
allocator, not among the provided sources) allocates a compressed-row
matrix of the given shape with the given number of pre-reserved storage
slots and a row-pointer array of length R+1, all buffers zeroed. -/
def empty (R C : ℤ) (size : Nat) : CSR :=
  ⟨(R, C), List.replicate size 0, List.replicate size 0,
    List.replicate (R + 1).toNat 0⟩

end csr

namespace dense

/-- Modelled from the spec: dense.zeros (the dense module's allocator,
not among the provided sources) allocates an R×C all-zero row-major
buffer. -/
def zeros (R C : ℤ) : Dense :=
  ⟨(R, C), List.replicate (R * C).toNat 0⟩

end dense

/-! ### The construction core (qutip/core/data/make.py) -/

/-- The out-of-bounds error raised by every one-element constructor; its
message carries the offending shape and position. -/
structure OutOfBoundsError where
  shape : ℤ × ℤ
  position : ℤ × ℤ
deriving DecidableEq, Repr

/-- one_element_coo: create a coordinate matrix with only one stored
element.  Checks bounds first, then returns the one-element triplet. -/
def one_element_coo (shape position : ℤ × ℤ) (value : Cplx) :
    Except OutOfBoundsError COO :=
  if 0 ≤ position.1 ∧ position.1 < shape.1 ∧
      0 ≤ position.2 ∧ position.2 < shape.2 then
    .ok ⟨shape, [value], [position.1], [position.2]⟩
  else
    .error ⟨shape, position⟩

/-- one_element_csr: create a compressed-row matrix with only one stored
element.  Checks bounds, allocates via csr.empty with one reserved slot,
writes the value and column index into slot 0, then fills the row-pointer
array by the two slice assignments indptr[:row+1] = 0 and
indptr[row+1:] = 1. -/
def one_element_csr (shape position : ℤ × ℤ) (value : Cplx) :
    Except OutOfBoundsError CSR :=
  if 0 ≤ position.1 ∧ position.1 < shape.1 ∧
      0 ≤ position.2 ∧ position.2 < shape.2 then
    let data := csr.empty shape.1 shape.2 1
    .ok { data with
      data := data.data.set 0 value,
      indices := data.indices.set 0 position.2,
      indptr :=
        setRange (setRange data.indptr 0 (position.1 + 1).toNat 0)
          (position.1 + 1).toNat data.indptr.length 1 }
  else
    .error ⟨shape, position⟩

/-- one_element_dense: create a dense matrix with only one nonzero
element.  Checks bounds, allocates an all-zero buffer via dense.zeros,
then writes the value at the row-major offset of the position. -/
def one_element_dense (shape position : ℤ × ℤ) (value : Cplx) :
    Except OutOfBoundsError Dense :=
  if 0 ≤ position.1 ∧ position.1 < shape.1 ∧
      0 ≤ position.2 ∧ position.2 < shape.2 then
    let data := dense.zeros shape.1 shape.2
    .ok { data with
      buffer :=
        data.buffer.set (position.1 * shape.2 + position.2).toNat value }
  else
    .error ⟨shape, position⟩

/-- one_element_dia: create a diagonal-offset matrix with only one
stored element.  Checks bounds, allocates a 1×C zero buffer, writes the
value at absolute buffer column col, and stores the single offset
col - row. -/
def one_element_dia (shape position : ℤ × ℤ) (value : Cplx) :
    Except OutOfBoundsError Dia :=
  if 0 ≤ position.1 ∧ position.1 < shape.1 ∧
      0 ≤ position.2 ∧ position.2 < shape.2 then
    .ok ⟨shape,
      [(List.replicate shape.2.toNat (0 : Cplx)).set position.2.toNat value],
      [position.2 - position.1]⟩
  else
    .error ⟨shape, position⟩

/-! ### The dispatch entry points -/

/-- A representation identifier, used by the dispatcher's registry. -/
inductive Rep
  | dense
  | coo
  | csr
  | dia
deriving DecidableEq, Repr

/-- A matrix in any of the four registered representations. -/
inductive MatrixAny
  | dense : Dense → MatrixAny
  | coo : COO → MatrixAny
  | csr : CSR → MatrixAny
  | dia : Dia → MatrixAny
deriving DecidableEq, Repr

/-- Modelled from the spec: the Dispatcher class (qutip/core/data/dispatch,
not among the provided sources).  The one_element dispatcher maps each
registered representation to its specialised constructor; when no output
representation is requested it falls back to the configured default,
which for one_element is the dense constructor. -/
def one_element (shape position : ℤ × ℤ) (value : Cplx)
    (rep : Option Rep) : Except OutOfBoundsError MatrixAny :=
  match rep with
  | none => (one_element_dense shape position value).map .dense
  | some .dense => (one_element_dense shape position value).map .dense
  | some .coo => (one_element_coo shape position value).map .coo
  | some .csr => (one_element_csr shape position value).map .csr
  | some .dia => (one_element_dia shape position value).map .dia

/-- The exact number of cells of an (R, C) matrix lying on the diagonal
at offset o: the cells (i, i + o) with 0 ≤ i < R and 0 ≤ i + o < C. -/
def diagLen (R C o : ℤ) : ℤ :=
  min R (C - o) - max 0 (-o)

/-- The smallest square dimension N for which every supplied diagonal
fits exactly: a diagonal of length L at offset o fills the offset-o
diagonal of an N×N matrix exactly when L + |o| = N. -/
def diagFitShape (diagonals : List (List Cplx)) (offsets : List ℤ) : ℤ :=
  ((diagonals.zip offsets).map
    (fun p => (p.1.length : ℤ) + p.2.natAbs)).foldr max 0

/-- The entry at (i, j) of the matrix assembled from the supplied
diagonals: the sum, over every diagonal whose offset is j - i, of that
diagonal's element falling at (i, j) (its element at band index
min(i, j)); diagonals sharing an offset are thereby summed. -/
def diagEntry (diagonals : List (List Cplx)) (offsets : List ℤ)
    (i j : ℤ) : Cplx :=
  (diagonals.zip offsets).foldr
    (fun p acc =>
      if p.2 = j - i then
        p.1.getD (if i ≤ j then i else j).toNat 0 + acc
      else acc) 0

/-- Modelled from the spec: the diag backends (csr.diags, dia.diags,
dense.diags, not among the provided sources; only the dispatch signature
and its docstring are given).  Per the documented contract the diagonals
must fit the output shape exactly with no extra or missing elements,
diagonals sharing an offset are summed, and when shape is omitted the
result is the smallest square matrix fitting all diagonals; the default
output representation is dense. -/
def diag (diagonals : List (List Cplx)) (offsets : List ℤ)
    (shape : Option (ℤ × ℤ)) : Except String Dense :=
  let N := diagFitShape diagonals offsets
  let sh := shape.getD (N, N)
  if diagonals.length = offsets.length ∧
      (diagonals.zip offsets).all
        (fun p => (p.1.length : ℤ) = diagLen sh.1 sh.2 p.2) then
    .ok ⟨sh, (List.range (sh.1 * sh.2).toNat).map
      (fun n : Nat => diagEntry diagonals offsets
        ((n : ℤ) / sh.2) ((n : ℤ) % sh.2))⟩
  else
    .error "diagonals do not fit the shape exactly"

/-! ### Helper lemmas: arithmetic of row-major offsets and pointers -/

theorem toNat_cond_iff (a b s : ℤ) (h1 : 0 ≤ a) (h2 : 0 ≤ b) (h3 : b < s) :
    (a.toNat = b.toNat ∧ b.toNat < s.toNat) ↔ a = b := by
  omega

theorem rowmajor_nonneg (C r c : ℤ) (h1 : 0 ≤ r) (h3 : 0 ≤ c)
    (h4 : c < C) : 0 ≤ r * C + c := by
  have hC : 0 < C := lt_of_le_of_lt h3 h4
  have := mul_nonneg h1 (le_of_lt hC)
  linarith

theorem rowmajor_lt (R C r c : ℤ) (h1 : 0 ≤ r) (h2 : r < R) (h3 : 0 ≤ c)
    (h4 : c < C) : r * C + c < R * C := by
  have hC : 0 < C := lt_of_le_of_lt h3 h4
  have h5 : r + 1 ≤ R := by omega
  have h6 : (r + 1) * C ≤ R * C :=
    mul_le_mul_of_nonneg_right h5 (le_of_lt hC)
  have h7 : (r + 1) * C = r * C + C := by ring
  linarith

theorem rowmajor_inj (C i j r c : ℤ) (hj1 : 0 ≤ j) (hj2 : j < C)
    (hc1 : 0 ≤ c) (hc2 : c < C) :
    i * C + j = r * C + c ↔ i = r ∧ j = c := by
  have hC : 0 < C := lt_of_le_of_lt hc1 hc2
  constructor
  · intro h
    have hir : i = r := by
      rcases lt_trichotomy i r with hlt | he | hgt
      · exfalso
        have ha : i - r ≤ -1 := by omega
        have hb : (i - r) * C ≤ -1 * C :=
          mul_le_mul_of_nonneg_right ha (le_of_lt hC)
        have hc : (i - r) * C = c - j := by linear_combination h
        have hd : (-1 : ℤ) * C = -C := by ring
        linarith
      · exact he
      · exfalso
        have ha : 1 ≤ i - r := by omega
        have hb : 1 * C ≤ (i - r) * C :=
          mul_le_mul_of_nonneg_right ha (le_of_lt hC)
        have hc : (i - r) * C = c - j := by linear_combination h
        have hd : (1 : ℤ) * C = C := by ring
        linarith
    subst hir
    exact ⟨rfl, by linarith⟩
  · rintro ⟨rfl, rfl⟩
    rfl

/-! ### Helper lemmas: explicit forms of the constructors on valid input -/

theorem one_element_dense_ok (R C row col : ℤ) (v : Cplx) (h1 : 0 ≤ row)
    (h2 : row < R) (h3 : 0 ≤ col) (h4 : col < C) :
    one_element_dense (R, C) (row, col) v =
      .ok ⟨(R, C),
        (List.replicate (R * C).toNat (0 : Cplx)).set
          (row * C + col).toNat v⟩ := by
  unfold one_element_dense dense.zeros
  rw [if_pos ⟨h1, h2, h3, h4⟩]

theorem one_element_coo_ok (R C row col : ℤ) (v : Cplx) (h1 : 0 ≤ row)
    (h2 : row < R) (h3 : 0 ≤ col) (h4 : col < C) :
    one_element_coo (R, C) (row, col) v =
      .ok ⟨(R, C), [v], [row], [col]⟩ := by
  unfold one_element_coo
  rw [if_pos ⟨h1, h2, h3, h4⟩]

theorem one_element_csr_ok (R C row col : ℤ) (v : Cplx) (h1 : 0 ≤ row)
    (h2 : row < R) (h3 : 0 ≤ col) (h4 : col < C) :
    one_element_csr (R, C) (row, col) v =
      .ok ⟨(R, C), [v], [col],
        setRange (setRange (List.replicate (R + 1).toNat (0 : ℤ)) 0
            (row + 1).toNat 0)
          (row + 1).toNat (R + 1).toNat 1⟩ := by
  unfold one_element_csr csr.empty
  rw [if_pos ⟨h1, h2, h3, h4⟩]
  simp [List.length_replicate, List.replicate]

theorem one_element_dia_ok (R C row col : ℤ) (v : Cplx) (h1 : 0 ≤ row)
    (h2 : row < R) (h3 : 0 ≤ col) (h4 : col < C) :
    one_element_dia (R, C) (row, col) v =
      .ok ⟨(R, C),
        [(List.replicate C.toNat (0 : Cplx)).set col.toNat v],
        [col - row]⟩ := by
  unfold one_element_dia
  rw [if_pos ⟨h1, h2, h3, h4⟩]

/-! ### Helper lemmas: reading back each produced representation -/

theorem csr_indptr_getD (R row : ℤ) (m : Nat) :
    (setRange (setRange (List.replicate (R + 1).toNat (0 : ℤ)) 0
        (row + 1).toNat 0)
      (row + 1).toNat (R + 1).toNat 1).getD m 0 =
    if (row + 1).toNat ≤ m ∧ m < (R + 1).toNat then 1 else 0 := by
  rw [getD_setRange, length_setRange, List.length_replicate,
    getD_setRange, List.length_replicate, getD_replicate]
  by_cases h : (row + 1).toNat ≤ m ∧ m < (R + 1).toNat
  · rw [if_pos ⟨h.1, h.2, h.2⟩, if_pos h]
  · rw [if_neg (by omega), if_neg h]
    by_cases h2 : 0 ≤ m ∧ m < (row + 1).toNat ∧ m < (R + 1).toNat
    · rw [if_pos h2]
    · rw [if_neg h2]
      exact ite_self 0

theorem dense_one_get (R C row col i j : ℤ) (v : Cplx)
    (h1 : 0 ≤ row) (h2 : row < R) (h3 : 0 ≤ col) (h4 : col < C)
    (hi1 : 0 ≤ i) (hi2 : i < R) (hj1 : 0 ≤ j) (hj2 : j < C) :
    (Dense.mk (R, C)
      ((List.replicate (R * C).toNat (0 : Cplx)).set
        (row * C + col).toNat v)).get i j =
    if i = row ∧ j = col then v else 0 := by
  show ((List.replicate (R * C).toNat (0 : Cplx)).set
      (row * C + col).toNat v).getD (i * C + j).toNat 0 = _
  rw [getD_set, List.length_replicate, getD_replicate, ite_self]
  have hcond : ((i * C + j).toNat = (row * C + col).toNat ∧
      (row * C + col).toNat < (R * C).toNat) ↔ (i = row ∧ j = col) := by
    rw [toNat_cond_iff (i * C + j) (row * C + col) (R * C)
      (rowmajor_nonneg C i j hi1 hj1 hj2)
      (rowmajor_nonneg C row col h1 h3 h4)
      (rowmajor_lt R C row col h1 h2 h3 h4)]
    exact rowmajor_inj C i j row col hj1 hj2 h3 h4
  exact if_congr hcond rfl rfl

theorem coo_one_get (R C row col i j : ℤ) (v : Cplx) :
    (COO.mk (R, C) [v] [row] [col]).get i j =
    if i = row ∧ j = col then v else 0 := by
  show (if row = i ∧ col = j then v + 0 else 0) = _
  by_cases h : i = row ∧ j = col
  · rw [if_pos ⟨h.1.symm, h.2.symm⟩, if_pos h, Cplx.add_zero]
  · rw [if_neg (fun hc => h ⟨hc.1.symm, hc.2.symm⟩), if_neg h]

theorem csr_one_get (R C row col i j : ℤ) (v : Cplx)
    (h1 : 0 ≤ row) (h2 : row < R) (h3 : 0 ≤ col) (h4 : col < C)
    (hi1 : 0 ≤ i) (hi2 : i < R) :
    (CSR.mk (R, C) [v] [col]
      (setRange (setRange (List.replicate (R + 1).toNat (0 : ℤ)) 0
          (row + 1).toNat 0)
        (row + 1).toNat (R + 1).toNat 1)).get i j =
    if i = row ∧ j = col then v else 0 := by
  unfold CSR.get
  have hr : List.range [v].length = [0] := rfl
  rw [hr]
  simp only [List.foldr_cons, List.foldr_nil, List.getD_cons_zero,
    csr_indptr_getD]
  rcases lt_trichotomy i row with hlt | heq | hgt
  · have hL : ¬((row + 1).toNat ≤ i.toNat ∧ i.toNat < (R + 1).toNat) := by
      omega
    have hH : ¬((row + 1).toNat ≤ i.toNat + 1 ∧
        i.toNat + 1 < (R + 1).toNat) := by
      omega
    rw [if_neg hL, if_neg hH,
      if_neg (fun hc => absurd hc.2.1 (by decide)),
      if_neg (fun hc => absurd hc.1 (by omega))]
  · subst heq
    have hL : ¬((i + 1).toNat ≤ i.toNat ∧ i.toNat < (R + 1).toNat) := by
      omega
    have hH : (i + 1).toNat ≤ i.toNat + 1 ∧
        i.toNat + 1 < (R + 1).toNat := by
      omega
    rw [if_neg hL, if_pos hH]
    by_cases hj : j = col
    · subst hj
      rw [if_pos ⟨by decide, by decide, rfl⟩, if_pos ⟨rfl, rfl⟩,
        Cplx.add_zero]
    · rw [if_neg (fun hc => hj hc.2.2.symm), if_neg (fun hc => hj hc.2)]
  · have hL : (row + 1).toNat ≤ i.toNat ∧ i.toNat < (R + 1).toNat := by
      omega
    have hH : (row + 1).toNat ≤ i.toNat + 1 ∧
        i.toNat + 1 < (R + 1).toNat := by
      omega
    rw [if_pos hL, if_pos hH,
      if_neg (fun hc => absurd hc.1 (by decide)),
      if_neg (fun hc => absurd hc.1 (by omega))]

theorem dia_one_get (R C row col i j : ℤ) (v : Cplx)
    (h1 : 0 ≤ row) (h2 : row < R) (h3 : 0 ≤ col) (h4 : col < C)
    (hj1 : 0 ≤ j) (hj2 : j < C) :
    (Dia.mk (R, C)
      [(List.replicate C.toNat (0 : Cplx)).set col.toNat v]
      [col - row]).get i j =
    if i = row ∧ j = col then v else 0 := by
  show (if col - row = j - i then
      ((List.replicate C.toNat (0 : Cplx)).set col.toNat v).getD j.toNat 0
        + 0
    else 0) = _
  rw [getD_set, List.length_replicate, getD_replicate, ite_self]
  by_cases h : i = row ∧ j = col
  · obtain ⟨rfl, rfl⟩ := h
    rw [if_pos rfl, if_pos (by omega), if_pos ⟨rfl, rfl⟩, Cplx.add_zero]
  · by_cases hoff : col - row = j - i
    · rw [if_pos hoff, if_neg (by omega), if_neg h]
      exact Cplx.add_zero 0
    · rw [if_neg hoff, if_neg h]

/-- Shared helper: whenever the bounds test fails, all four constructors
report the out-of-bounds error carrying the shape and the position. -/
theorem out_of_bounds_all (R C row col : ℤ) (v : Cplx)
    (h : ¬(0 ≤ row ∧ row < R ∧ 0 ≤ col ∧ col < C)) :
    one_element_dense (R, C) (row, col) v = .error ⟨(R, C), (row, col)⟩ ∧
    one_element_coo (R, C) (row, col) v = .error ⟨(R, C), (row, col)⟩ ∧
    one_element_csr (R, C) (row, col) v = .error ⟨(R, C), (row, col)⟩ ∧
    one_element_dia (R, C) (row, col) v = .error ⟨(R, C), (row, col)⟩ := by
  unfold one_element_dense one_element_coo one_element_csr one_element_dia
  refine ⟨?_, ?_, ?_, ?_⟩ <;> rw [if_neg h]

/-! ### The claims -/

/-- Claim C2: for every shape and every position outside the shape, each
of the four one-element constructors fails with an OutOfBounds error
carrying exactly that shape and that position; the embedding returns the
error alone, so no partial result is observable. -/
theorem one_element_out_of_bounds (R C row col : ℤ) (v : Cplx)
    (h : row < 0 ∨ R ≤ row ∨ col < 0 ∨ C ≤ col) :
    one_element_dense (R, C) (row, col) v = .error ⟨(R, C), (row, col)⟩ ∧
    one_element_coo (R, C) (row, col) v = .error ⟨(R, C), (row, col)⟩ ∧
    one_element_csr (R, C) (row, col) v = .error ⟨(R, C), (row, col)⟩ ∧
    one_element_dia (R, C) (row, col) v = .error ⟨(R, C), (row, col)⟩ :=
  out_of_bounds_all R C row col v (by omega)

/-- Witness for C2 at shape (2,2), position (2,0). -/
theorem one_element_out_of_bounds_witness :
    ((2 : ℤ) < 0 ∨ (2 : ℤ) ≤ 2 ∨ (0 : ℤ) < 0 ∨ (2 : ℤ) ≤ 0) ∧
    (one_element_dense (2, 2) (2, 0) 1 = .error ⟨(2, 2), (2, 0)⟩ ∧
      one_element_coo (2, 2) (2, 0) 1 = .error ⟨(2, 2), (2, 0)⟩ ∧
      one_element_csr (2, 2) (2, 0) 1 = .error ⟨(2, 2), (2, 0)⟩ ∧
      one_element_dia (2, 2) (2, 0) 1 = .error ⟨(2, 2), (2, 0)⟩) :=
  ⟨by omega, one_element_out_of_bounds 2 2 2 0 1 (by omega)⟩

/-- Claim C10: for every shape with a non-positive dimension, the bounds
test is unsatisfiable, so every one of the four constructors rejects
every position with the out-of-bounds error and allocates nothing. -/
theorem one_element_degenerate_shape (R C : ℤ) (h : R ≤ 0 ∨ C ≤ 0) :
    ∀ (row col : ℤ) (v : Cplx),
      one_element_dense (R, C) (row, col) v =
        .error ⟨(R, C), (row, col)⟩ ∧
      one_element_coo (R, C) (row, col) v =
        .error ⟨(R, C), (row, col)⟩ ∧
      one_element_csr (R, C) (row, col) v =
        .error ⟨(R, C), (row, col)⟩ ∧
      one_element_dia (R, C) (row, col) v =
        .error ⟨(R, C), (row, col)⟩ :=
  fun row col v => out_of_bounds_all R C row col v (by omega)

/-- Witness for C10 at shape (0, 2), position (0, 0). -/
theorem one_element_degenerate_shape_witness :
    ((0 : ℤ) ≤ 0 ∨ (2 : ℤ) ≤ 0) ∧
    (one_element_dense (0, 2) (0, 0) 1 = .error ⟨(0, 2), (0, 0)⟩ ∧
      one_element_coo (0, 2) (0, 0) 1 = .error ⟨(0, 2), (0, 0)⟩ ∧
      one_element_csr (0, 2) (0, 0) 1 = .error ⟨(0, 2), (0, 0)⟩ ∧
      one_element_dia (0, 2) (0, 0) 1 = .error ⟨(0, 2), (0, 0)⟩) :=
  ⟨by omega, one_element_degenerate_shape 0 2 (by omega) 0 0 1⟩

/-- Claim C6: for every valid shape, position and value, the coordinate
constructor returns the length-1 triplet with the value, row index and
column index; all three sequences are freshly built from the scalar
arguments, so the result aliases no input buffer. -/
theorem one_element_coo_triplet_spec (R C row col : ℤ) (v : Cplx)
    (h1 : 0 ≤ row) (h2 : row < R) (h3 : 0 ≤ col) (h4 : col < C) :
    ∃ m : COO, one_element_coo (R, C) (row, col) v = .ok m ∧
      m.data = [v] ∧ m.rows = [row] ∧ m.cols = [col] :=
  ⟨_, one_element_coo_ok R C row col v h1 h2 h3 h4, rfl, rfl, rfl⟩

/-- Witness for C6 at shape (2,2), position (0,1), value 1. -/
theorem one_element_coo_triplet_spec_witness :
    ((0 : ℤ) ≤ 0 ∧ (0 : ℤ) < 2 ∧ (0 : ℤ) ≤ 1 ∧ (1 : ℤ) < 2) ∧
    (∃ m : COO, one_element_coo (2, 2) (0, 1) 1 = .ok m ∧
      m.data = [1] ∧ m.rows = [0] ∧ m.cols = [1]) :=
  ⟨⟨by omega, by omega, by omega, by omega⟩,
    one_element_coo_triplet_spec 2 2 0 1 1
      (by omega) (by omega) (by omega) (by omega)⟩

/-- Claim C7: the one_element dispatch entry point with no requested
representation returns the dense constructor's result (wrapped in the
dispatcher's output), i.e. the default representation is dense. -/
theorem one_element_default_dense (shape position : ℤ × ℤ) (v : Cplx) :
    one_element shape position v none =
      (one_element_dense shape position v).map MatrixAny.dense ∧
    one_element shape position v none =
      one_element shape position v (some Rep.dense) :=
  ⟨rfl, rfl⟩

/-- Claim C1: for every valid shape, position and value, the four
one-element constructors all encode the same abstract matrix: reading
back the entry at the requested position from each produced
representation yields the value, and every other in-range position
yields 0. -/
theorem one_element_constructors_agree (R C row col : ℤ) (v : Cplx)
    (h1 : 0 ≤ row) (h2 : row < R) (h3 : 0 ≤ col) (h4 : col < C) :
    ∃ (md : Dense) (mo : COO) (ms : CSR) (mb : Dia),
      one_element_dense (R, C) (row, col) v = .ok md ∧
      one_element_coo (R, C) (row, col) v = .ok mo ∧
      one_element_csr (R, C) (row, col) v = .ok ms ∧
      one_element_dia (R, C) (row, col) v = .ok mb ∧
      md.get row col = v ∧ mo.get row col = v ∧
      ms.get row col = v ∧ mb.get row col = v ∧
      (∀ i j : ℤ, 0 ≤ i → i < R → 0 ≤ j → j < C →
        ¬(i = row ∧ j = col) →
        md.get i j = 0 ∧ mo.get i j = 0 ∧
        ms.get i j = 0 ∧ mb.get i j = 0) := by
  refine ⟨_, _, _, _, one_element_dense_ok R C row col v h1 h2 h3 h4,
    one_element_coo_ok R C row col v h1 h2 h3 h4,
    one_element_csr_ok R C row col v h1 h2 h3 h4,
    one_element_dia_ok R C row col v h1 h2 h3 h4, ?_, ?_, ?_, ?_, ?_⟩
  · rw [dense_one_get R C row col row col v h1 h2 h3 h4 h1 h2 h3 h4,
      if_pos ⟨rfl, rfl⟩]
  · rw [coo_one_get R C row col row col v, if_pos ⟨rfl, rfl⟩]
  · rw [csr_one_get R C row col row col v h1 h2 h3 h4 h1 h2,
      if_pos ⟨rfl, rfl⟩]
  · rw [dia_one_get R C row col row col v h1 h2 h3 h4 h3 h4,
      if_pos ⟨rfl, rfl⟩]
  · intro i j hi1 hi2 hj1 hj2 hne
    refine ⟨?_, ?_, ?_, ?_⟩
    · rw [dense_one_get R C row col i j v h1 h2 h3 h4 hi1 hi2 hj1 hj2,
        if_neg hne]
    · rw [coo_one_get R C row col i j v, if_neg hne]
    · rw [csr_one_get R C row col i j v h1 h2 h3 h4 hi1 hi2, if_neg hne]
    · rw [dia_one_get R C row col i j v h1 h2 h3 h4 hj1 hj2, if_neg hne]

/-- Witness for C1 at shape (3,3), position (1,1), value 2. -/
theorem one_element_constructors_agree_witness :
    ((0 : ℤ) ≤ 1 ∧ (1 : ℤ) < 3 ∧ (0 : ℤ) ≤ 1 ∧ (1 : ℤ) < 3) ∧
    (∃ (md : Dense) (mo : COO) (ms : CSR) (mb : Dia),
      one_element_dense (3, 3) (1, 1) ⟨2, 0⟩ = .ok md ∧
      one_element_coo (3, 3) (1, 1) ⟨2, 0⟩ = .ok mo ∧
      one_element_csr (3, 3) (1, 1) ⟨2, 0⟩ = .ok ms ∧
      one_element_dia (3, 3) (1, 1) ⟨2, 0⟩ = .ok mb ∧
      md.get 1 1 = ⟨2, 0⟩ ∧ mo.get 1 1 = ⟨2, 0⟩ ∧
      ms.get 1 1 = ⟨2, 0⟩ ∧ mb.get 1 1 = ⟨2, 0⟩ ∧
      (∀ i j : ℤ, 0 ≤ i → i < 3 → 0 ≤ j → j < 3 →
        ¬(i = 1 ∧ j = 1) →
        md.get i j = 0 ∧ mo.get i j = 0 ∧
        ms.get i j = 0 ∧ mb.get i j = 0)) :=
  ⟨⟨by omega, by omega, by omega, by omega⟩,
    one_element_constructors_agree 3 3 1 1 ⟨2, 0⟩
      (by omega) (by omega) (by omega) (by omega)⟩

/-- Claim C4: for every valid shape, position and value, the dense
constructor returns a buffer of exactly R*C scalars in row-major order,
every cell materialized as zero except the one at the requested
position's linear offset, which holds the value. -/
theorem one_element_dense_rowmajor_spec (R C row col : ℤ) (v : Cplx)
    (h1 : 0 ≤ row) (h2 : row < R) (h3 : 0 ≤ col) (h4 : col < C) :
    ∃ m : Dense, one_element_dense (R, C) (row, col) v = .ok m ∧
      m.shape = (R, C) ∧
      m.buffer.length = (R * C).toNat ∧
      (∀ n : Nat, n < (R * C).toNat →
        m.buffer.getD n 0 = if (n : ℤ) = row * C + col then v else 0) := by
  refine ⟨_, one_element_dense_ok R C row col v h1 h2 h3 h4, rfl, ?_, ?_⟩
  · rw [List.length_set, List.length_replicate]
  · intro n hn
    have hb : 0 ≤ row * C + col := rowmajor_nonneg C row col h1 h3 h4
    have hs : row * C + col < R * C := rowmajor_lt R C row col h1 h2 h3 h4
    rw [getD_set, List.length_replicate, getD_replicate, ite_self]
    refine if_congr ?_ rfl rfl
    generalize row * C + col = b at hb hs ⊢
    generalize R * C = s at hs ⊢
    omega

/-- Witness for C4 at shape (3,3), position (1,1), value 2. -/
theorem one_element_dense_rowmajor_spec_witness :
    ((0 : ℤ) ≤ 1 ∧ (1 : ℤ) < 3 ∧ (0 : ℤ) ≤ 1 ∧ (1 : ℤ) < 3) ∧
    (∃ m : Dense, one_element_dense (3, 3) (1, 1) ⟨2, 0⟩ = .ok m ∧
      m.shape = (3, 3) ∧
      m.buffer.length = ((3 : ℤ) * 3).toNat ∧
      (∀ n : Nat, n < ((3 : ℤ) * 3).toNat →
        m.buffer.getD n 0 =
          if (n : ℤ) = 1 * 3 + 1 then ⟨2, 0⟩ else 0)) :=
  ⟨⟨by omega, by omega, by omega, by omega⟩,
    one_element_dense_rowmajor_spec 3 3 1 1 ⟨2, 0⟩
      (by omega) (by omega) (by omega) (by omega)⟩

/-- Claim C5: for every valid shape, position and value, the
diagonal-offset constructor returns the single-element offsets array
[col - row] (an offset within the band bound) and a 1×C diagonal buffer
that is zero everywhere except at absolute buffer column col, which
holds the value. -/
theorem one_element_dia_offset_spec (R C row col : ℤ) (v : Cplx)
    (h1 : 0 ≤ row) (h2 : row < R) (h3 : 0 ≤ col) (h4 : col < C) :
    ∃ m : Dia, one_element_dia (R, C) (row, col) v = .ok m ∧
      m.offsets = [col - row] ∧ (-R < col - row ∧ col - row < C) ∧
      (∃ b : List Cplx, m.data = [b] ∧ b.length = C.toNat ∧
        ∀ n : Nat, n < C.toNat →
          b.getD n 0 = if (n : ℤ) = col then v else 0) := by
  refine ⟨_, one_element_dia_ok R C row col v h1 h2 h3 h4, rfl,
    ⟨by omega, by omega⟩, _, rfl, ?_, ?_⟩
  · rw [List.length_set, List.length_replicate]
  · intro n hn
    rw [getD_set, List.length_replicate, getD_replicate, ite_self]
    exact if_congr (by omega) rfl rfl

/-- Witness for C5 at shape (3,3), position (0,2), value 1. -/
theorem one_element_dia_offset_spec_witness :
    ((0 : ℤ) ≤ 0 ∧ (0 : ℤ) < 3 ∧ (0 : ℤ) ≤ 2 ∧ (2 : ℤ) < 3) ∧
    (∃ m : Dia, one_element_dia (3, 3) (0, 2) 1 = .ok m ∧
      m.offsets = [2 - 0] ∧
      (-(3 : ℤ) < 2 - 0 ∧ (2 : ℤ) - 0 < 3) ∧
      (∃ b : List Cplx, m.data = [b] ∧ b.length = (3 : ℤ).toNat ∧
        ∀ n : Nat, n < (3 : ℤ).toNat →
          b.getD n 0 = if (n : ℤ) = 2 then 1 else 0)) :=
  ⟨⟨by omega, by omega, by omega, by omega⟩,
    one_element_dia_offset_spec 3 3 0 2 1
      (by omega) (by omega) (by omega) (by omega)⟩

/-- Claim C3: for every valid shape, position and value, the
compressed-row constructor produces values [value], column indices
[col], and a row-pointer array of length R+1 with p[i] = 0 for i ≤ row
and p[i] = 1 for i > row; hence p is non-decreasing, p[0] = 0,
p[R] = 1, and consecutive pointers differ exactly at the entry's row. -/
theorem one_element_csr_rowptr_spec (R C row col : ℤ) (v : Cplx)
    (h1 : 0 ≤ row) (h2 : row < R) (h3 : 0 ≤ col) (h4 : col < C) :
    ∃ m : CSR, one_element_csr (R, C) (row, col) v = .ok m ∧
      m.data = [v] ∧ m.indices = [col] ∧
      m.indptr.length = (R + 1).toNat ∧
      (∀ idx : ℤ, 0 ≤ idx → idx ≤ R →
        m.indptr.getD idx.toNat 0 = if idx ≤ row then 0 else 1) ∧
      (∀ k : Nat, k + 1 < (R + 1).toNat →
        m.indptr.getD k 0 ≤ m.indptr.getD (k + 1) 0) ∧
      m.indptr.getD 0 0 = 0 ∧
      m.indptr.getD R.toNat 0 = 1 ∧
      (∀ idx : ℤ, 0 ≤ idx → idx < R →
        (m.indptr.getD idx.toNat 0 ≠ m.indptr.getD (idx + 1).toNat 0 ↔
          idx = row)) := by
  refine ⟨_, one_element_csr_ok R C row col v h1 h2 h3 h4, rfl, rfl,
    ?_, ?_, ?_, ?_, ?_, ?_⟩
  · rw [length_setRange, length_setRange, List.length_replicate]
  · intro idx hx1 hx2
    rw [csr_indptr_getD]
    by_cases h : idx ≤ row
    · rw [if_neg (by omega), if_pos h]
    · rw [if_pos (by omega), if_neg h]
  · intro k hk
    rw [csr_indptr_getD, csr_indptr_getD]
    by_cases ha : (row + 1).toNat ≤ k ∧ k < (R + 1).toNat
    · rw [if_pos ha, if_pos ⟨by omega, hk⟩]
    · rw [if_neg ha]
      by_cases hb : (row + 1).toNat ≤ k + 1 ∧ k + 1 < (R + 1).toNat
      · rw [if_pos hb]
        decide
      · rw [if_neg hb]
  · rw [csr_indptr_getD, if_neg (by omega)]
  · rw [csr_indptr_getD, if_pos (by omega)]
  · intro idx hx1 hx2
    rw [csr_indptr_getD, csr_indptr_getD]
    rcases lt_trichotomy idx row with hlt | heq | hgt
    · rw [if_neg (by omega), if_neg (by omega)]
      constructor
      · intro hc
        exact absurd rfl hc
      · intro hc
        exact absurd hc (by omega)
    · subst heq
      rw [if_neg (by omega), if_pos (by omega)]
      exact ⟨fun _ => rfl, fun _ => by decide⟩
    · rw [if_pos (by omega), if_pos (by omega)]
      constructor
      · intro hc
        exact absurd rfl hc
      · intro hc
        exact absurd hc (by omega)

/-- Witness for C3 at shape (4,4), position (2,3), value 1: the
row-pointer array reads [0,0,0,1,1]. -/
theorem one_element_csr_rowptr_spec_witness :
    ((0 : ℤ) ≤ 2 ∧ (2 : ℤ) < 4 ∧ (0 : ℤ) ≤ 3 ∧ (3 : ℤ) < 4) ∧
    (∃ m : CSR, one_element_csr (4, 4) (2, 3) 1 = .ok m ∧
      m.data = [1] ∧ m.indices = [3] ∧
      m.indptr.length = ((4 : ℤ) + 1).toNat ∧
      (∀ idx : ℤ, 0 ≤ idx → idx ≤ 4 →
        m.indptr.getD idx.toNat 0 = if idx ≤ 2 then 0 else 1) ∧
      (∀ k : Nat, k + 1 < ((4 : ℤ) + 1).toNat →
        m.indptr.getD k 0 ≤ m.indptr.getD (k + 1) 0) ∧
      m.indptr.getD 0 0 = 0 ∧
      m.indptr.getD (4 : ℤ).toNat 0 = 1 ∧
      (∀ idx : ℤ, 0 ≤ idx → idx < 4 →
        (m.indptr.getD idx.toNat 0 ≠ m.indptr.getD (idx + 1).toNat 0 ↔
          idx = 2))) :=
  ⟨⟨by omega, by omega, by omega, by omega⟩,
    one_element_csr_rowptr_spec 4 4 2 3 1
      (by omega) (by omega) (by omega) (by omega)⟩

/-- Claim C9: for every valid shape and position and every value,
including zero, each sparse constructor stores exactly one explicit
entry: the coordinate triplet has length 1, the compressed-row result
has stored-entry count p[R] = 1 with one value slot, and the
diagonal-offset result stores exactly one diagonal. -/
theorem sparse_one_entry_invariant (R C row col : ℤ) (v : Cplx)
    (h1 : 0 ≤ row) (h2 : row < R) (h3 : 0 ≤ col) (h4 : col < C) :
    ∃ (mo : COO) (ms : CSR) (mb : Dia),
      one_element_coo (R, C) (row, col) v = .ok mo ∧
      one_element_csr (R, C) (row, col) v = .ok ms ∧
      one_element_dia (R, C) (row, col) v = .ok mb ∧
      mo.data.length = 1 ∧ mo.rows.length = 1 ∧ mo.cols.length = 1 ∧
      ms.data.length = 1 ∧ ms.indptr.getD R.toNat 0 = 1 ∧
      mb.offsets.length = 1 ∧ mb.data.length = 1 := by
  refine ⟨_, _, _, one_element_coo_ok R C row col v h1 h2 h3 h4,
    one_element_csr_ok R C row col v h1 h2 h3 h4,
    one_element_dia_ok R C row col v h1 h2 h3 h4,
    rfl, rfl, rfl, rfl, ?_, rfl, rfl⟩
  rw [csr_indptr_getD, if_pos (by omega)]

/-- Witness for C9 at shape (2,3), position (1,2) with value 0: the
stored-entry counts are still 1. -/
theorem sparse_one_entry_invariant_witness :
    ((0 : ℤ) ≤ 1 ∧ (1 : ℤ) < 2 ∧ (0 : ℤ) ≤ 2 ∧ (2 : ℤ) < 3) ∧
    (∃ (mo : COO) (ms : CSR) (mb : Dia),
      one_element_coo (2, 3) (1, 2) 0 = .ok mo ∧
      one_element_csr (2, 3) (1, 2) 0 = .ok ms ∧
      one_element_dia (2, 3) (1, 2) 0 = .ok mb ∧
      mo.data.length = 1 ∧ mo.rows.length = 1 ∧ mo.cols.length = 1 ∧
      ms.data.length = 1 ∧ ms.indptr.getD (2 : ℤ).toNat 0 = 1 ∧
      mb.offsets.length = 1 ∧ mb.data.length = 1) :=
  ⟨⟨by omega, by omega, by omega, by omega⟩,
    sparse_one_entry_invariant 2 3 1 2 0
      (by omega) (by omega) (by omega) (by omega)⟩

/-! ### Helpers for the diag contract -/

theorem foldr_max_nonneg (l : List ℤ) : 0 ≤ l.foldr max 0 := by
  induction l with
  | nil => exact le_refl 0
  | cons x xs ih =>
    simp only [List.foldr_cons]
    exact le_trans ih (le_max_right x _)

theorem diagFitShape_nonneg (ds : List (List Cplx)) (os : List ℤ) :
    0 ≤ diagFitShape ds os :=
  foldr_max_nonneg _

theorem getD_map_range {α : Type} (f : Nat → α) (n k : Nat) (d : α)
    (h : k < n) : ((List.range n).map f).getD k d = f k := by
  have hlen : k < ((List.range n).map f).length := by
    simpa [List.length_map, List.length_range] using h
  rw [List.getD_eq_getElem _ _ hlen, List.getElem_map, List.getElem_range]

/-- Claim C8: when the shape argument is omitted, diag produces the
square shape exactly fitting all supplied diagonals (side N with
L + |o| = N for each), and its entries are the offset-matched diagonal
values, diagonals sharing an offset being summed. -/
theorem diag_default_shape_spec (ds : List (List Cplx)) (os : List ℤ)
    (hlen : ds.length = os.length)
    (hfit : ∀ p ∈ ds.zip os,
      (p.1.length : ℤ) + p.2.natAbs = diagFitShape ds os) :
    ∃ m : Dense, diag ds os none = .ok m ∧
      m.shape = (diagFitShape ds os, diagFitShape ds os) ∧
      ∀ i j : ℤ, 0 ≤ i → i < diagFitShape ds os →
        0 ≤ j → j < diagFitShape ds os →
        m.get i j = diagEntry ds os i j := by
  have hall : (ds.zip os).all
      (fun p => decide ((p.1.length : ℤ) =
        diagLen (diagFitShape ds os) (diagFitShape ds os) p.2)) =
      true := by
    rw [List.all_eq_true]
    intro p hp
    rw [decide_eq_true_eq]
    have hf := hfit p hp
    have hL : (0 : ℤ) ≤ p.1.length := Int.ofNat_nonneg _
    unfold diagLen
    omega
  have hdiag : diag ds os none =
      .ok ⟨(diagFitShape ds os, diagFitShape ds os),
        (List.range (diagFitShape ds os * diagFitShape ds os).toNat).map
          (fun n : Nat => diagEntry ds os ((n : ℤ) / diagFitShape ds os)
            ((n : ℤ) % diagFitShape ds os))⟩ := by
    simp only [diag, Option.getD_none]
    rw [if_pos ⟨hlen, hall⟩]
  refine ⟨_, hdiag, rfl, ?_⟩
  intro i j hi1 hi2 hj1 hj2
  have hlt : i * diagFitShape ds os + j <
      diagFitShape ds os * diagFitShape ds os :=
    rowmajor_lt (diagFitShape ds os) (diagFitShape ds os) i j
      hi1 hi2 hj1 hj2
  have hnn : 0 ≤ i * diagFitShape ds os + j :=
    rowmajor_nonneg (diagFitShape ds os) i j hi1 hj1 hj2
  have hkey : (i * diagFitShape ds os + j).toNat <
      (diagFitShape ds os * diagFitShape ds os).toNat := by
    generalize i * diagFitShape ds os + j = a at hlt hnn
    generalize diagFitShape ds os * diagFitShape ds os = b at hlt
    omega
  have hNpos : 0 < diagFitShape ds os := lt_of_le_of_lt hj1 hj2
  show ((List.range (diagFitShape ds os * diagFitShape ds os).toNat).map
      (fun n : Nat => diagEntry ds os ((n : ℤ) / diagFitShape ds os)
        ((n : ℤ) % diagFitShape ds os))).getD
      (i * diagFitShape ds os + j).toNat 0 = diagEntry ds os i j
  rw [getD_map_range _ _ _ _ hkey]
  have hcast : (((i * diagFitShape ds os + j).toNat : ℕ) : ℤ) =
      i * diagFitShape ds os + j := Int.toNat_of_nonneg hnn
  rw [hcast]
  have hdiv : (i * diagFitShape ds os + j) / diagFitShape ds os = i := by
    rw [show i * diagFitShape ds os + j = j + i * diagFitShape ds os
        by ring,
      Int.add_mul_ediv_right j i (ne_of_gt hNpos),
      Int.ediv_eq_zero_of_lt hj1 hj2, zero_add]
  have hmod : (i * diagFitShape ds os + j) % diagFitShape ds os = j := by
    rw [show i * diagFitShape ds os + j = j + i * diagFitShape ds os
        by ring,
      Int.add_mul_emod_self, Int.emod_eq_of_lt hj1 hj2]
  rw [hdiv, hmod]

/-- Witness for C8: diag with diagonals [[1,1,1]] and offsets [0] and no
shape yields a 3×3 matrix with 1 on the main diagonal and 0 elsewhere
on the sampled off-diagonal entry. -/
theorem diag_default_shape_spec_witness :
    ([[(1 : Cplx), 1, 1]].length = [(0 : ℤ)].length ∧
      (∀ p ∈ [[(1 : Cplx), 1, 1]].zip [(0 : ℤ)],
        (p.1.length : ℤ) + p.2.natAbs =
          diagFitShape [[(1 : Cplx), 1, 1]] [(0 : ℤ)])) ∧
    (∃ m : Dense, diag [[(1 : Cplx), 1, 1]] [(0 : ℤ)] none = .ok m ∧
      m.shape = (3, 3) ∧ m.get 0 0 = 1 ∧ m.get 1 1 = 1 ∧
      m.get 2 2 = 1 ∧ m.get 0 1 = 0) := by
  have h := diag_default_shape_spec [[(1 : Cplx), 1, 1]] [(0 : ℤ)]
    (by decide) (by decide)
  obtain ⟨m, hok, hsh, hget⟩ := h
  refine ⟨⟨by decide, by decide⟩, m, hok, ?_, ?_, ?_, ?_, ?_⟩
  · rw [hsh]
    decide
  · rw [hget 0 0 (by decide) (by decide) (by decide) (by decide)]
    norm_num [diagEntry, Cplx.add_zero]
  · rw [hget 1 1 (by decide) (by decide) (by decide) (by decide)]
    norm_num [diagEntry, Cplx.add_zero]
  · rw [hget 2 2 (by decide) (by decide) (by decide) (by decide)]
    norm_num [diagEntry, Cplx.add_zero]
    decide
  · rw [hget 0 1 (by decide) (by decide) (by decide) (by decide)]
    norm_num [diagEntry, Cplx.add_zero]
